import Mathlib

/-!
Verification of the finance-forecast simulator's core against its design notes.

All currency amounts are modelled exactly as rationals (`ℚ`); the Python source
uses IEEE floats, but every algorithm here is plain field arithmetic with
comparisons, so the rational model is the exact-arithmetic semantics of the
same code.  Python loops become structural recursions; loops whose termination
is itself in question (`rrsp_before_tax_calc`, `expected_payoff_months`) are
given explicit fuel and return `Option`, with `none` meaning "has not stopped
within the fuel"; operations that can raise (`ZeroDivisionError` in
`Person.withdraw_cash`) return `Option`, `none` marking the raise.
-/

/-! ### Taxes (src/expenses.py, class Taxes)

`Taxes` stores parallel lists of bracket thresholds and marginal rates
(`__init__` requires equal lengths).  `tax_payable` embeds the loop of
src/expenses.py lines 53-93: `taxGo income prev prate pairs` is the loop from
index `i` onwards, where `prev`/`prate` are `brackets[i-1]`/`tax_rates[i-1]`
and `pairs` zips the remaining `brackets[i:]` with `tax_rates[i:]`.  The
`rest.isEmpty` branch is the `i == len(brackets) - 1` top-bracket case.  An
empty bracket list makes the Python raise `IndexError`; the total model
returns 0 there (no claim touches an empty table). -/

structure Taxes where
  brackets : List ℚ
  tax_rates : List ℚ

def taxGo (income : ℚ) : ℚ → ℚ → List (ℚ × ℚ) → ℚ
  | _, _, [] => 0
  | prev, prate, (lim, nrate) :: rest =>
    if income < lim then
      (income - prev) * prate
    else
      (lim - prev) * prate +
        (if rest.isEmpty then (income - lim) * nrate else taxGo income lim nrate rest)

def Taxes.tax_payable (t : Taxes) (income : ℚ) : ℚ :=
  match t.brackets, t.tax_rates with
  | b0 :: bs, r0 :: rs => if income < b0 then 0 else taxGo income b0 r0 (bs.zip rs)
  | _, _ => 0

/-- Modelled from the spec (§4.1): the closed form
`tax(income) = Σ rate[i] * (min(income, threshold[i+1]) − threshold[i])`
over fully- or partially-filled brackets (0 for empty ones), with the top
bracket's rate applied to all income above the last threshold.  This is the
spec-side definition that `Taxes.tax_payable` is compared against. -/
def closedGo (income : ℚ) : ℚ → ℚ → List (ℚ × ℚ) → ℚ
  | prev, prate, [] => prate * max 0 (income - prev)
  | prev, prate, (lim, nrate) :: rest =>
    prate * max 0 (min income lim - prev) + closedGo income lim nrate rest

/-- Modelled from the spec (§4.1): closed-form tax over a whole table. -/
def taxClosedForm (brackets rates : List ℚ) (income : ℚ) : ℚ :=
  match brackets, rates with
  | b0 :: bs, r0 :: rs => closedGo income b0 r0 (bs.zip rs)
  | _, _ => 0

lemma closedGo_of_le (income prev prate : ℚ) (pairs : List (ℚ × ℚ))
    (hchain : List.Chain (· ≤ ·) prev (pairs.map Prod.fst))
    (h : income ≤ prev) : closedGo income prev prate pairs = 0 := by
  induction pairs generalizing prev prate with
  | nil =>
    simp only [closedGo]
    rw [max_eq_left (by linarith), mul_zero]
  | cons hd tl ih =>
    obtain ⟨lim, nrate⟩ := hd
    simp only [List.map_cons, List.chain_cons] at hchain
    simp only [closedGo]
    rw [max_eq_left (by have := min_le_left income lim; linarith),
      ih lim nrate hchain.2 (le_trans h hchain.1), mul_zero, add_zero]

lemma taxGo_eq_closedGo (income prev prate : ℚ) (pairs : List (ℚ × ℚ))
    (hne : pairs ≠ [])
    (hchain : List.Chain (· ≤ ·) prev (pairs.map Prod.fst))
    (h : prev ≤ income) :
    taxGo income prev prate pairs = closedGo income prev prate pairs := by
  induction pairs generalizing prev prate with
  | nil => exact absurd rfl hne
  | cons hd tl ih =>
    obtain ⟨lim, nrate⟩ := hd
    simp only [List.map_cons, List.chain_cons] at hchain
    simp only [taxGo, closedGo]
    by_cases hlt : income < lim
    · rw [if_pos hlt, min_eq_left (le_of_lt hlt), max_eq_right (by linarith),
        closedGo_of_le income lim nrate tl hchain.2 (le_of_lt hlt), add_zero,
        mul_comm]
    · push_neg at hlt
      rw [if_neg (not_lt.mpr hlt), min_eq_right hlt, max_eq_right (by linarith)]
      cases tl with
      | nil =>
        simp only [List.isEmpty_nil, if_true, closedGo]
        rw [max_eq_right (by linarith)]
        ring
      | cons hd2 tl2 =>
        simp only [List.isEmpty_cons, if_false, Bool.false_eq_true]
        rw [ih lim nrate (by simp) hchain.2 hlt, mul_comm]

/-! ### Bounds, monotonicity and Lipschitz continuity of the bracket loop -/

lemma taxGo_bounds (income prev prate c : ℚ) (pairs : List (ℚ × ℚ))
    (hchain : List.Chain (· ≤ ·) prev (pairs.map Prod.fst))
    (hr0 : 0 ≤ prate) (hrc : prate ≤ c)
    (hrs : ∀ p ∈ pairs, 0 ≤ p.2 ∧ p.2 ≤ c)
    (hpx : prev ≤ income) :
    0 ≤ taxGo income prev prate pairs ∧
      taxGo income prev prate pairs ≤ c * (income - prev) := by
  induction pairs generalizing prev prate with
  | nil =>
    simp only [taxGo]
    exact ⟨le_refl 0, mul_nonneg (le_trans hr0 hrc) (by linarith)⟩
  | cons hd tl ih =>
    obtain ⟨lim, nrate⟩ := hd
    simp only [List.map_cons, List.chain_cons] at hchain
    obtain ⟨hn0, hnc⟩ := hrs (lim, nrate) (List.mem_cons_self _ _)
    simp only [taxGo]
    by_cases hlt : income < lim
    · rw [if_pos hlt]
      constructor
      · exact mul_nonneg (by linarith) hr0
      · nlinarith
    · push_neg at hlt
      rw [if_neg (not_lt.mpr hlt)]
      cases tl with
      | nil =>
        simp only [List.isEmpty_nil, if_true]
        constructor
        · have h1 : 0 ≤ (lim - prev) * prate := mul_nonneg (by linarith) hr0
          have h2 : 0 ≤ (income - lim) * nrate := mul_nonneg (by linarith) hn0
          linarith
        · nlinarith
      | cons hd2 tl2 =>
        simp only [List.isEmpty_cons, if_false, Bool.false_eq_true]
        have hrec := ih lim nrate hchain.2 hn0 hnc
          (fun p hp => hrs p (List.mem_cons_of_mem _ hp)) hlt
        constructor
        · have h1 : 0 ≤ (lim - prev) * prate := mul_nonneg (by linarith) hr0
          linarith [hrec.1]
        · nlinarith [hrec.2]

lemma taxGo_mono_lip (x y prev prate c : ℚ) (pairs : List (ℚ × ℚ))
    (hchain : List.Chain (· ≤ ·) prev (pairs.map Prod.fst))
    (hr0 : 0 ≤ prate) (hrc : prate ≤ c)
    (hrs : ∀ p ∈ pairs, 0 ≤ p.2 ∧ p.2 ≤ c)
    (hpx : prev ≤ x) (hxy : x ≤ y) :
    taxGo x prev prate pairs ≤ taxGo y prev prate pairs ∧
      taxGo y prev prate pairs - taxGo x prev prate pairs ≤ c * (y - x) := by
  induction pairs generalizing prev prate with
  | nil =>
    simp only [taxGo]
    have := mul_nonneg (le_trans hr0 hrc) (sub_nonneg.mpr hxy)
    exact ⟨le_refl 0, by linarith⟩
  | cons hd tl ih =>
    obtain ⟨lim, nrate⟩ := hd
    simp only [List.map_cons, List.chain_cons] at hchain
    obtain ⟨hn0, hnc⟩ := hrs (lim, nrate) (List.mem_cons_self _ _)
    simp only [taxGo]
    by_cases hylt : y < lim
    · have hxlt : x < lim := lt_of_le_of_lt hxy hylt
      rw [if_pos hylt, if_pos hxlt]
      constructor
      · nlinarith
      · nlinarith
    · push_neg at hylt
      by_cases hxlt : x < lim
      · rw [if_neg (not_lt.mpr hylt), if_pos hxlt]
        cases tl with
        | nil =>
          simp only [List.isEmpty_nil, if_true]
          constructor
          · nlinarith [mul_nonneg (sub_nonneg.mpr hylt) hn0]
          · nlinarith [mul_nonneg (sub_nonneg.mpr hylt) hn0]
        | cons hd2 tl2 =>
          simp only [List.isEmpty_cons, if_false, Bool.false_eq_true]
          have hb := taxGo_bounds y lim nrate c (hd2 :: tl2) hchain.2 hn0 hnc
            (fun p hp => hrs p (List.mem_cons_of_mem _ hp)) hylt
          constructor
          · nlinarith [hb.1]
          · nlinarith [hb.2]
      · push_neg at hxlt
        rw [if_neg (not_lt.mpr hylt), if_neg (not_lt.mpr hxlt)]
        cases tl with
        | nil =>
          simp only [List.isEmpty_nil, if_true]
          constructor
          · nlinarith
          · nlinarith
        | cons hd2 tl2 =>
          simp only [List.isEmpty_cons, if_false, Bool.false_eq_true]
          have hrec := ih lim nrate hchain.2 hn0 hnc
            (fun p hp => hrs p (List.mem_cons_of_mem _ hp)) hxlt
          constructor
          · linarith [hrec.1]
          · linarith [hrec.2]

lemma tax_payable_mono_lip (t : Taxes) (c : ℚ) (hc : 0 ≤ c)
    (hlen : t.brackets.length = t.tax_rates.length)
    (hchain : t.brackets.Chain' (· ≤ ·))
    (hrs : ∀ r ∈ t.tax_rates, 0 ≤ r ∧ r ≤ c)
    (x y : ℚ) (hxy : x ≤ y) :
    t.tax_payable x ≤ t.tax_payable y ∧
      t.tax_payable y - t.tax_payable x ≤ c * (y - x) := by
  obtain ⟨bl, rl⟩ := t
  match bl, rl, hlen with
  | [], [], _ =>
    simp only [Taxes.tax_payable]
    have := mul_nonneg hc (sub_nonneg.mpr hxy)
    exact ⟨le_refl 0, by linarith⟩
  | b0 :: bs, r0 :: rs, hlen =>
    simp only [List.length_cons, Nat.succ_inj] at hlen
    have hzip : (bs.zip rs).map Prod.fst = bs := List.map_fst_zip bs rs (le_of_eq hlen)
    have hchain2 : List.Chain (· ≤ ·) b0 ((bs.zip rs).map Prod.fst) := by
      rw [hzip]; exact hchain
    obtain ⟨hr00, hr0c⟩ := hrs r0 (List.mem_cons_self _ _)
    have hrs2 : ∀ p ∈ bs.zip rs, 0 ≤ p.2 ∧ p.2 ≤ c := fun p hp =>
      hrs p.2 (List.mem_cons_of_mem _ (List.of_mem_zip hp).2)
    simp only [Taxes.tax_payable]
    by_cases hyb : y < b0
    · rw [if_pos hyb, if_pos (lt_of_le_of_lt hxy hyb)]
      have := mul_nonneg hc (sub_nonneg.mpr hxy)
      exact ⟨le_refl 0, by linarith⟩
    · push_neg at hyb
      rw [if_neg (not_lt.mpr hyb)]
      by_cases hxb : x < b0
      · rw [if_pos hxb]
        have hb := taxGo_bounds y b0 r0 c (bs.zip rs) hchain2 hr00 hr0c hrs2 hyb
        constructor
        · linarith [hb.1]
        · nlinarith [hb.2]
      · push_neg at hxb
        rw [if_neg (not_lt.mpr hxb)]
        exact taxGo_mono_lip x y b0 r0 c (bs.zip rs) hchain2 hr00 hr0c hrs2 hxb hxy

/-- C1 (amended: at least two brackets): for every tax table with at least two
brackets, ascending thresholds and an equal-length rate list,
`Taxes.tax_payable` equals the spec's closed-form bracket sum, and is 0 for
every income below the first threshold. -/
theorem taxes_tax_payable_closed_form (t : Taxes)
    (hlen2 : 2 ≤ t.brackets.length)
    (hlen : t.brackets.length = t.tax_rates.length)
    (hchain : t.brackets.Chain' (· ≤ ·)) :
    (∀ income, t.tax_payable income = taxClosedForm t.brackets t.tax_rates income) ∧
      ∀ income, income < t.brackets.headI → t.tax_payable income = 0 := by
  obtain ⟨bl, rl⟩ := t
  match bl, rl, hlen with
  | b0 :: b1 :: bs, r0 :: r1 :: rs, hlen =>
    simp only [List.length_cons, Nat.succ_inj] at hlen
    have hzip : ((b1 :: bs).zip (r1 :: rs)).map Prod.fst = b1 :: bs :=
      List.map_fst_zip _ _ (by simp [hlen])
    have hchain2 : List.Chain (· ≤ ·) b0 (((b1 :: bs).zip (r1 :: rs)).map Prod.fst) := by
      rw [hzip]; exact hchain
    constructor
    · intro income
      simp only [Taxes.tax_payable, taxClosedForm]
      by_cases hb : income < b0
      · rw [if_pos hb, closedGo_of_le income b0 r0 _ hchain2 (le_of_lt hb)]
      · push_neg at hb
        rw [if_neg (not_lt.mpr hb)]
        exact taxGo_eq_closedGo income b0 r0 _ (by simp [List.zip]) hchain2 hb
    · intro income hb
      simp only [List.headI] at hb
      simp only [Taxes.tax_payable, if_pos hb]
  | b0 :: b1 :: bs, [], hlen => simp at hlen
  | [], _, _ => simp at hlen2
  | [b0], _, _ => simp at hlen2

/-- C1 counterexample: the one-bracket table `Taxes([10], [1/2])` has
(vacuously) ascending thresholds and an equal-length rate list, yet at
income 20 the code returns 0 while the spec's closed form (top rate applied
to all income above the last threshold) gives 5. -/
theorem taxes_tax_payable_closed_form_cx :
    List.Chain' (· ≤ ·) [(10 : ℚ)] ∧
      ([(10 : ℚ)].length = [(1/2 : ℚ)].length) ∧
      (Taxes.mk [10] [1/2]).tax_payable 20 = 0 ∧
      taxClosedForm [10] [1/2] 20 = 5 ∧ (0 : ℚ) ≠ 5 := by
  refine ⟨List.chain'_singleton _, rfl, ?_, ?_, by norm_num⟩
  · norm_num [Taxes.tax_payable, taxGo]
  · norm_num [taxClosedForm, closedGo]

/-- C1 witness: the amended theorem applied to the three-bracket test table
from src/test_cases.py at concrete incomes. -/
theorem taxes_tax_payable_closed_form_witness :
    (2 ≤ ([1000, 11000, 111000] : List ℚ).length) ∧
      (Taxes.mk [1000, 11000, 111000] [1/10, 2/10, 3/10]).tax_payable 11000 =
        taxClosedForm [1000, 11000, 111000] [1/10, 2/10, 3/10] 11000 ∧
      (Taxes.mk [1000, 11000, 111000] [1/10, 2/10, 3/10]).tax_payable 500 = 0 :=
  ⟨by decide,
    (taxes_tax_payable_closed_form (Taxes.mk [1000, 11000, 111000] [1/10, 2/10, 3/10])
      (by decide) rfl (by norm_num [List.chain'_cons, List.chain'_singleton])).1 11000,
    (taxes_tax_payable_closed_form (Taxes.mk [1000, 11000, 111000] [1/10, 2/10, 3/10])
      (by decide) rfl (by norm_num [List.chain'_cons, List.chain'_singleton])).2 500
      (by norm_num [List.headI])⟩

/-- C6 (amended: ascending thresholds and nonnegative rates): for every such
tax table, `Taxes.tax_payable` is non-decreasing in income and continuous at
each bracket threshold. -/
theorem taxes_tax_payable_monotone_continuous (t : Taxes)
    (hlen : t.brackets.length = t.tax_rates.length)
    (hchain : t.brackets.Chain' (· ≤ ·))
    (hrs : ∀ r ∈ t.tax_rates, 0 ≤ r) :
    (∀ x y, x ≤ y → t.tax_payable x ≤ t.tax_payable y) ∧
      ∀ b ∈ t.brackets, ∀ ε > 0, ∃ δ > 0, ∀ x,
        |x - b| < δ → |t.tax_payable x - t.tax_payable b| < ε := by
  set c := t.tax_rates.sum with hcdef
  have hc : 0 ≤ c := List.sum_nonneg hrs
  have hrc : ∀ r ∈ t.tax_rates, 0 ≤ r ∧ r ≤ c := fun r hr =>
    ⟨hrs r hr, List.single_le_sum hrs r hr⟩
  have hml := tax_payable_mono_lip t c hc hlen hchain hrc
  have key : ∀ u v : ℚ, u ≤ v →
      |t.tax_payable v - t.tax_payable u| ≤ c * (v - u) := fun u v huv => by
    rw [abs_of_nonneg (sub_nonneg.mpr (hml u v huv).1)]
    exact (hml u v huv).2
  refine ⟨fun x y hxy => (hml x y hxy).1, fun b _ ε hε => ?_⟩
  have hc1 : (0 : ℚ) < c + 1 := by linarith
  refine ⟨ε / (c + 1), by positivity, fun x hx => ?_⟩
  have h2 : |t.tax_payable x - t.tax_payable b| ≤ c * |x - b| := by
    rcases le_total x b with h | h
    · rw [abs_sub_comm, abs_sub_comm x b, abs_of_nonneg (sub_nonneg.mpr h)]
      exact key x b h
    · rw [abs_of_nonneg (sub_nonneg.mpr h)]
      exact key b x h
  have h3 : c * |x - b| ≤ c * (ε / (c + 1)) :=
    mul_le_mul_of_nonneg_left (le_of_lt hx) hc
  have h4 : c * (ε / (c + 1)) < ε := by
    rw [← mul_div_assoc, div_lt_iff₀ hc1]
    nlinarith
  linarith

/-- C6 counterexample: the table `Taxes([0, 10], [-1, -1])` (ascending
thresholds, equal lengths) is not non-decreasing: tax at income 0 is 0 but
tax at income 10 is -10. -/
theorem taxes_tax_payable_monotone_continuous_cx :
    List.Chain' (· ≤ ·) [(0 : ℚ), 10] ∧
      ([(0 : ℚ), 10].length = [(-1 : ℚ), -1].length) ∧
      (0 : ℚ) ≤ 10 ∧
      (Taxes.mk [0, 10] [-1, -1]).tax_payable 0 = 0 ∧
      (Taxes.mk [0, 10] [-1, -1]).tax_payable 10 = -10 ∧
      ¬((Taxes.mk [0, 10] [-1, -1]).tax_payable 0 ≤
        (Taxes.mk [0, 10] [-1, -1]).tax_payable 10) := by
  refine ⟨by norm_num [List.chain'_cons, List.chain'_singleton], rfl, by norm_num,
    ?_, ?_, ?_⟩ <;>
    norm_num [Taxes.tax_payable, taxGo]

/-- C6 witness: monotonicity and threshold continuity of the amended theorem
at the test table, at incomes 500 ≤ 2000 and at the threshold 1000. -/
theorem taxes_tax_payable_monotone_continuous_witness :
    (Taxes.mk [1000, 11000, 111000] [1/10, 2/10, 3/10]).tax_payable 500 ≤
      (Taxes.mk [1000, 11000, 111000] [1/10, 2/10, 3/10]).tax_payable 2000 ∧
    ∃ δ > 0, ∀ x, |x - 1000| < δ →
      |(Taxes.mk [1000, 11000, 111000] [1/10, 2/10, 3/10]).tax_payable x -
        (Taxes.mk [1000, 11000, 111000] [1/10, 2/10, 3/10]).tax_payable 1000| < 1 :=
  ⟨(taxes_tax_payable_monotone_continuous
      (Taxes.mk [1000, 11000, 111000] [1/10, 2/10, 3/10])
      rfl (by norm_num [List.chain'_cons, List.chain'_singleton])
      (by norm_num)).1 500 2000 (by norm_num),
    (taxes_tax_payable_monotone_continuous
      (Taxes.mk [1000, 11000, 111000] [1/10, 2/10, 3/10])
      rfl (by norm_num [List.chain'_cons, List.chain'_singleton])
      (by norm_num)).2 1000 (by norm_num) 1 (by norm_num)⟩

/-! ### The concrete Federal/Ontario tables and the module-level `tax_payable`
(src/expenses.py lines 531-552; src/savings.py lines 22-35 duplicates the same
constants) -/

def FEDERAL_BASIC_AMOUNT : ℚ := 13229

def FEDERAL_BRACKETS : List ℚ := [FEDERAL_BASIC_AMOUNT, 48535, 97070, 150474, 214368]

def FEDERAL_TAX_RATES : List ℚ := [0.1500, 0.2050, 0.2600, 0.2900, 0.3300]

def ONTARIO_BASIC_AMOUNT : ℚ := 10783

def ONTARIO_BRACKETS : List ℚ := [ONTARIO_BASIC_AMOUNT, 44740, 89482, 150000, 220000]

def ONTARIO_TAX_RATES : List ℚ := [0.0505, 0.0915, 0.1116, 0.1216, 0.1316]

def FEDERAL_TAX : Taxes := ⟨FEDERAL_BRACKETS, FEDERAL_TAX_RATES⟩

def ONTARIO_TAX : Taxes := ⟨ONTARIO_BRACKETS, ONTARIO_TAX_RATES⟩

def tax_payable (income : ℚ) : ℚ :=
  FEDERAL_TAX.tax_payable income + ONTARIO_TAX.tax_payable income

/-- The combined table is non-decreasing and 1/2-Lipschitz: the top combined
marginal rate is 0.33 + 0.1316 = 0.4616 ≤ 1/2. -/
lemma tax_payable_mono_lip_combined (x y : ℚ) (hxy : x ≤ y) :
    tax_payable x ≤ tax_payable y ∧
      tax_payable y - tax_payable x ≤ (1/2) * (y - x) := by
  have hf := tax_payable_mono_lip FEDERAL_TAX (33/100) (by norm_num) rfl
    (by norm_num [FEDERAL_TAX, FEDERAL_BRACKETS, FEDERAL_BASIC_AMOUNT,
      List.chain'_cons, List.chain'_singleton])
    (by norm_num [FEDERAL_TAX, FEDERAL_TAX_RATES]) x y hxy
  have ho := tax_payable_mono_lip ONTARIO_TAX (1316/10000) (by norm_num) rfl
    (by norm_num [ONTARIO_TAX, ONTARIO_BRACKETS, ONTARIO_BASIC_AMOUNT,
      List.chain'_cons, List.chain'_singleton])
    (by norm_num [ONTARIO_TAX, ONTARIO_TAX_RATES]) x y hxy
  unfold tax_payable
  constructor
  · linarith [hf.1, ho.1]
  · nlinarith [hf.2, ho.2, sub_nonneg.mpr hxy]

lemma tax_payable_abs_lip (x y : ℚ) :
    |tax_payable x - tax_payable y| ≤ (1/2) * |x - y| := by
  rcases le_total x y with h | h
  · have := tax_payable_mono_lip_combined x y h
    rw [abs_sub_comm, abs_of_nonneg (sub_nonneg.mpr this.1), abs_sub_comm,
      abs_of_nonneg (sub_nonneg.mpr h)]
    exact this.2
  · have := tax_payable_mono_lip_combined y x h
    rw [abs_of_nonneg (sub_nonneg.mpr this.1), abs_of_nonneg (sub_nonneg.mpr h)]
    exact this.2

/-! ### The RRSP before-tax solver (src/savings.py lines 38-52)

`rrspDiff` is the quantity `abs(AT_original - AT_guess) - AT_deduction`
computed in the loop body with `AT_guess = BT_guess - tax_payable(BT_guess)`;
the loop runs while `abs(rrspDiff) > 0.1` and each iteration does
`BT_guess += rrspDiff`.  Fuel-indexed: `none` means the loop has not exited
within `fuel` iterations. -/

def rrspDiff (AT_deduction AT_original BT_guess : ℚ) : ℚ :=
  |AT_original - (BT_guess - tax_payable BT_guess)| - AT_deduction

def rrspGo (AT_deduction AT_original : ℚ) : ℕ → ℚ → Option ℚ
  | 0, BT_guess =>
    if |rrspDiff AT_deduction AT_original BT_guess| ≤ 1/10 then some BT_guess
    else none
  | fuel+1, BT_guess =>
    if |rrspDiff AT_deduction AT_original BT_guess| ≤ 1/10 then some BT_guess
    else rrspGo AT_deduction AT_original fuel
      (BT_guess + rrspDiff AT_deduction AT_original BT_guess)

def rrsp_before_tax_calc (fuel : ℕ) (AT_deduction AT_original BT_original : ℚ) :
    Option ℚ :=
  rrspGo AT_deduction AT_original fuel BT_original

/-- Below the starting point `B`, the guessed after-tax income never exceeds
the original after-tax income `A = B - tax(B)`, because `g ↦ g - tax(g)` is
non-decreasing (tax has slope at most 1/2 < 1). -/
lemma rrsp_at_nonneg (B g : ℚ) (hg : g ≤ B) :
    0 ≤ (B - tax_payable B) - (g - tax_payable g) := by
  have := (tax_payable_mono_lip_combined g B hg).2
  linarith

lemma rrspGo_terminates (D A B : ℚ) (hA : A = B - tax_payable B) (hD0 : 0 ≤ D) :
    ∀ n : ℕ, ∀ g, g ≤ B → |rrspDiff D A g| ≤ (1/10) * 2 ^ n →
      ∃ r, rrspGo D A n g = some r ∧ r ≤ B ∧ |rrspDiff D A r| ≤ 1/10 := by
  intro n
  induction n with
  | zero =>
    intro g hgB hbound
    rw [pow_zero, mul_one] at hbound
    exact ⟨g, by rw [rrspGo, if_pos hbound], hgB, hbound⟩
  | succ n ih =>
    intro g hgB hbound
    by_cases hstop : |rrspDiff D A g| ≤ 1/10
    · exact ⟨g, by rw [rrspGo, if_pos hstop], hgB, hstop⟩
    · have hAT : 0 ≤ A - (g - tax_payable g) := hA ▸ rrsp_at_nonneg B g hgB
      have hdiff : rrspDiff D A g = (A - (g - tax_payable g)) - D := by
        rw [rrspDiff, abs_of_nonneg hAT]
      set g2 := g + rrspDiff D A g with hg2
      have hg2eq : g2 = A - D + tax_payable g := by rw [hg2, hdiff]; ring
      have hg2B : g2 ≤ B := by
        have := (tax_payable_mono_lip_combined g B hgB).1
        rw [hg2eq, hA]; linarith
      have hAT2 : 0 ≤ A - (g2 - tax_payable g2) := hA ▸ rrsp_at_nonneg B g2 hg2B
      have hdiff2 : rrspDiff D A g2 = tax_payable g2 - tax_payable g := by
        rw [rrspDiff, abs_of_nonneg hAT2, hg2eq]; ring
      have hhalf : |rrspDiff D A g2| ≤ (1/2) * |rrspDiff D A g| := by
        rw [hdiff2]
        calc |tax_payable g2 - tax_payable g| ≤ (1/2) * |g2 - g| :=
              tax_payable_abs_lip g2 g
          _ = (1/2) * |rrspDiff D A g| := by rw [hg2]; ring_nf
      have hbound2 : |rrspDiff D A g2| ≤ (1/10) * 2 ^ n := by
        have h2 : (1/2 : ℚ) * |rrspDiff D A g| ≤ (1/2) * ((1/10) * 2 ^ (n+1)) :=
          mul_le_mul_of_nonneg_left hbound (by norm_num)
        calc |rrspDiff D A g2| ≤ (1/2) * |rrspDiff D A g| := hhalf
          _ ≤ (1/2) * ((1/10) * 2 ^ (n+1)) := h2
          _ = (1/10) * 2 ^ n := by ring
      obtain ⟨r, hr, hrB, hrd⟩ := ih g2 hg2B hbound2
      exact ⟨r, by rw [rrspGo, if_neg hstop]; exact hr, hrB, hrd⟩

/-- C2: for every before-tax income B with after-tax income
A = B − tax_payable(B), and every desired after-tax deduction D with
0 ≤ D < A, the iteration of `rrsp_before_tax_calc` (started from g = B)
terminates, returning g with |(A − (g − tax_payable(g))) − D| ≤ 0.1. -/
theorem rrsp_before_tax_calc_converges (AT_deduction AT_original BT_original : ℚ)
    (hA : AT_original = BT_original - tax_payable BT_original)
    (hD0 : 0 ≤ AT_deduction) (hDA : AT_deduction < AT_original) :
    ∃ fuel g,
      rrsp_before_tax_calc fuel AT_deduction AT_original BT_original = some g ∧
        |(AT_original - (g - tax_payable g)) - AT_deduction| ≤ 1/10 := by
  obtain ⟨n, hn⟩ :=
    pow_unbounded_of_one_lt (10 * AT_deduction) (by norm_num : (1:ℚ) < 2)
  have hstart : |rrspDiff AT_deduction AT_original BT_original| ≤ (1/10) * 2 ^ n := by
    have : rrspDiff AT_deduction AT_original BT_original = -AT_deduction := by
      rw [rrspDiff, hA]
      simp
    rw [this, abs_neg, abs_of_nonneg hD0]
    linarith
  obtain ⟨r, hr, hrB, hrd⟩ := rrspGo_terminates AT_deduction AT_original BT_original
    hA hD0 n BT_original (le_refl _) hstart
  refine ⟨n, r, hr, ?_⟩
  have hAT : 0 ≤ AT_original - (r - tax_payable r) :=
    hA ▸ rrsp_at_nonneg BT_original r hrB
  rw [rrspDiff, abs_of_nonneg hAT] at hrd
  exact hrd

/-- Exact value of the combined tax at income 100000, used by the C2 witness. -/
lemma tax_payable_100000 : tax_payable 100000 = 229899053/10000 := by
  norm_num [tax_payable, FEDERAL_TAX, ONTARIO_TAX, FEDERAL_BRACKETS, ONTARIO_BRACKETS,
    FEDERAL_TAX_RATES, ONTARIO_TAX_RATES, FEDERAL_BASIC_AMOUNT, ONTARIO_BASIC_AMOUNT,
    Taxes.tax_payable, taxGo]

/-- C2 witness: the solver theorem applied at before-tax income 100000 and
desired after-tax deduction 20000. -/
theorem rrsp_before_tax_calc_converges_witness :
    (0 : ℚ) ≤ 20000 ∧ (20000 : ℚ) < 100000 - tax_payable 100000 ∧
      ∃ fuel g,
        rrsp_before_tax_calc fuel 20000 (100000 - tax_payable 100000) 100000 =
          some g ∧
        |((100000 - tax_payable 100000) - (g - tax_payable g)) - 20000| ≤ 1/10 :=
  ⟨by norm_num, by rw [tax_payable_100000]; norm_num,
    rrsp_before_tax_calc_converges 20000 (100000 - tax_payable 100000) 100000 rfl
      (by norm_num) (by rw [tax_payable_100000]; norm_num)⟩

/-! ### Mortgage (src/expenses.py, class Mortgage, lines 141-324)

A mortgage state is the tuple of instance fields; `rate` is the stored monthly
rate (`__init__` divides the annual rate by 12) and `monthly_payment` the fixed
payment computed once at construction.  The claims quantify over mortgage
states, so the state is modelled directly by its fields.
`iterate_n_months` mutates the state and returns the cash paid, so it is
embedded as `Mortgage → ℕ → Mortgage × ℚ`; `expected_n_cost` only reads the
state (the Python works on a local `principal` copy and assigns no field), so
it is `Mortgage → ℕ → ℚ`.  `expected_payoff_months` is a `while True` loop,
modelled with fuel (`none` = still looping after `fuel` months). -/

structure Mortgage where
  rate : ℚ
  period : ℚ
  monthly_payment : ℚ
  house_cost : ℚ
  down_payment : ℚ
  principal_remaining : ℚ
  interest_paid : ℚ

def Mortgage.iterate_n_months : Mortgage → ℕ → Mortgage × ℚ
  | mort, 0 => (mort, 0)
  | mort, n+1 =>
    let interest_payment := mort.principal_remaining * mort.rate
    let principal_payment :=
      min (mort.monthly_payment - interest_payment) mort.principal_remaining
    let mort2 := { mort with
      interest_paid := mort.interest_paid + interest_payment,
      principal_remaining := mort.principal_remaining - principal_payment }
    if mort2.principal_remaining < 0 then
      (mort2, interest_payment + principal_payment)
    else
      let rest := Mortgage.iterate_n_months mort2 n
      (rest.1, interest_payment + principal_payment + rest.2)

def expectedGo (rate m : ℚ) : ℕ → ℚ → ℚ
  | 0, _ => 0
  | n+1, principal =>
    let interest_payment := principal * rate
    let principal_payment := min (m - interest_payment) principal
    let p2 := principal - principal_payment
    if p2 < 0 then interest_payment + principal_payment
    else interest_payment + principal_payment + expectedGo rate m n p2

def Mortgage.expected_n_cost (mort : Mortgage) (n : ℕ) : ℚ :=
  expectedGo mort.rate mort.monthly_payment n mort.principal_remaining

def payoffGo (rate m : ℚ) : ℕ → ℚ → Option ℕ
  | 0, _ => none
  | fuel+1, p =>
    let interest_payment := p * rate
    let principal_payment := min (m - interest_payment) p
    let p2 := p - principal_payment
    if p2 < 1 then some 1 else (payoffGo rate m fuel p2).map (· + 1)

def Mortgage.expected_payoff_months (mort : Mortgage) (fuel : ℕ) : Option ℕ :=
  payoffGo mort.rate mort.monthly_payment fuel mort.principal_remaining

/-- The principal after `n` months of the fixed-payment schedule of
`expected_payoff_months` (the same per-month update as its loop body). -/
def payoffPrincipal (rate m : ℚ) : ℕ → ℚ → ℚ
  | 0, p => p
  | n+1, p => payoffPrincipal rate m n (p - min (m - p * rate) p)

/-- C7: `expected_n_cost` returns exactly the cash amount that
`iterate_n_months` would return from the same state — and, being a plain
function of the state (the source assigns no instance field in it), it leaves
every mortgage field unchanged. -/
theorem mortgage_expected_n_cost_eq_iterate (mort : Mortgage) (n : ℕ) :
    mort.expected_n_cost n = (mort.iterate_n_months n).2 := by
  induction n generalizing mort with
  | zero => rfl
  | succ n ih =>
    simp only [Mortgage.expected_n_cost, Mortgage.iterate_n_months, expectedGo]
    by_cases h : mort.principal_remaining -
        min (mort.monthly_payment - mort.principal_remaining * mort.rate)
          mort.principal_remaining < 0
    · simp only [if_pos h]
    · simp only [if_neg h]
      have := ih { mort with
        interest_paid := mort.interest_paid + mort.principal_remaining * mort.rate,
        principal_remaining := mort.principal_remaining -
          min (mort.monthly_payment - mort.principal_remaining * mort.rate)
            mort.principal_remaining }
      simp only [Mortgage.expected_n_cost] at this
      rw [this]

/-- The month update can never drive the principal strictly negative (the
principal payment is capped at the remaining principal), so the early-exit
branch of `iterate_n_months` is dead code. -/
lemma mortgage_step_principal_nonneg (mort : Mortgage) :
    ¬ (mort.principal_remaining -
        min (mort.monthly_payment - mort.principal_remaining * mort.rate)
          mort.principal_remaining < 0) := by
  have := min_le_right (mort.monthly_payment - mort.principal_remaining * mort.rate)
    mort.principal_remaining
  push_neg
  linarith

lemma mortgage_iterate_add (mort : Mortgage) (a b : ℕ) :
    mort.iterate_n_months (a + b) =
      (((mort.iterate_n_months a).1.iterate_n_months b).1,
        (mort.iterate_n_months a).2 +
          ((mort.iterate_n_months a).1.iterate_n_months b).2) := by
  induction a generalizing mort with
  | zero =>
    simp only [Nat.zero_add, Mortgage.iterate_n_months]
    rw [zero_add]
  | succ a ih =>
    have hsa : a + 1 + b = (a + b) + 1 := by omega
    rw [hsa]
    simp only [Mortgage.iterate_n_months,
      if_neg (mortgage_step_principal_nonneg mort)]
    rw [ih]
    simp only [Prod.mk.injEq]
    exact ⟨trivial, by ring⟩

/-- C8: advancing a mortgage 1 month and then 5 months gives the same final
principal, the same cumulative interest, and the same total cash paid as a
single 6-month advance from the original state, in exact arithmetic. -/
theorem mortgage_iterate_one_five_eq_six (mort : Mortgage) :
    ((mort.iterate_n_months 1).1.iterate_n_months 5).1.principal_remaining =
        (mort.iterate_n_months 6).1.principal_remaining ∧
      ((mort.iterate_n_months 1).1.iterate_n_months 5).1.interest_paid =
        (mort.iterate_n_months 6).1.interest_paid ∧
      (mort.iterate_n_months 1).2 +
          ((mort.iterate_n_months 1).1.iterate_n_months 5).2 =
        (mort.iterate_n_months 6).2 := by
  have h : (6 : ℕ) = 1 + 5 := rfl
  rw [h, mortgage_iterate_add mort 1 5]
  exact ⟨rfl, rfl, rfl⟩

lemma payoffGo_terminates (rate m P0 : ℚ) (hr : 0 ≤ rate) (hm : rate * P0 < m) :
    ∀ fuel : ℕ, ∀ p, p ≤ P0 → p < 1 + fuel * (m - rate * P0) →
      ∃ n, payoffGo rate m (fuel + 1) p = some n ∧ 1 ≤ n ∧
        payoffPrincipal rate m n p < 1 ∧
        ∀ k, 1 ≤ k → k < n → 1 ≤ payoffPrincipal rate m k p := by
  intro fuel
  induction fuel with
  | zero =>
    intro p hpP hplt
    rw [Nat.cast_zero, zero_mul, add_zero] at hplt
    have ha : m - rate * P0 ≤ m - p * rate := by nlinarith
    have hp2 : p - min (m - p * rate) p < 1 := by
      rcases le_total (m - p * rate) p with h | h
      · rw [min_eq_left h]; linarith
      · rw [min_eq_right h]; linarith
    refine ⟨1, ?_, le_refl 1, ?_, fun k hk1 hk => by omega⟩
    · simp only [payoffGo, if_pos hp2]
    · simp only [payoffPrincipal]
      exact hp2
  | succ fuel ih =>
    intro p hpP hplt
    by_cases hp2 : p - min (m - p * rate) p < 1
    · refine ⟨1, ?_, le_refl 1, ?_, fun k hk1 hk => by omega⟩
      · simp only [payoffGo, if_pos hp2]
      · simp only [payoffPrincipal]
        exact hp2
    · push_neg at hp2
      have ha : m - rate * P0 ≤ m - p * rate := by nlinarith
      have hmin : min (m - p * rate) p = m - p * rate := by
        rcases le_total (m - p * rate) p with h | h
        · exact min_eq_left h
        · exfalso
          have hz : p - min (m - p * rate) p = 0 := by rw [min_eq_right h]; ring
          rw [hz] at hp2
          linarith
      have hp2P : p - min (m - p * rate) p ≤ P0 := by rw [hmin]; nlinarith
      have hp2lt : p - min (m - p * rate) p < 1 + fuel * (m - rate * P0) := by
        rw [hmin]
        push_cast [Nat.cast_succ] at hplt ⊢
        nlinarith
      obtain ⟨n, hsome, hn1, hnlt, hk⟩ := ih _ hp2P hp2lt
      refine ⟨n + 1, ?_, by omega, ?_, ?_⟩
      · show (if p - min (m - p * rate) p < 1 then some 1
            else (payoffGo rate m (fuel + 1) (p - min (m - p * rate) p)).map
              (· + 1)) = some (n + 1)
        rw [if_neg (not_lt.mpr hp2), hsome]
        rfl
      · show payoffPrincipal rate m n (p - min (m - p * rate) p) < 1
        exact hnlt
      · intro k hk1 hkn
        match k, hk1 with
        | 1, _ =>
          show 1 ≤ p - min (m - p * rate) p
          exact hp2
        | (j+2), _ =>
          show 1 ≤ payoffPrincipal rate m (j+1) (p - min (m - p * rate) p)
          exact hk (j+1) (by omega) (by omega)

/-- C3 (amended: the payment strictly exceeds the monthly interest on the
original principal, the rate is nonnegative, and the remaining principal does
not exceed the original principal): `expected_payoff_months` terminates and
returns the first month count at which the fixed-payment schedule drives the
remaining principal below 1. -/
theorem mortgage_expected_payoff_months_terminates (mort : Mortgage)
    (hr : 0 ≤ mort.rate)
    (hp : mort.principal_remaining ≤ mort.house_cost - mort.down_payment)
    (hm : mort.rate * (mort.house_cost - mort.down_payment) <
      mort.monthly_payment) :
    ∃ fuel n, mort.expected_payoff_months fuel = some n ∧ 1 ≤ n ∧
      payoffPrincipal mort.rate mort.monthly_payment n mort.principal_remaining
        < 1 ∧
      ∀ k, 1 ≤ k → k < n →
        1 ≤ payoffPrincipal mort.rate mort.monthly_payment k
          mort.principal_remaining := by
  set d := mort.monthly_payment -
    mort.rate * (mort.house_cost - mort.down_payment) with hddef
  have hd : 0 < d := by rw [hddef]; linarith
  obtain ⟨fuel, hfuel⟩ := exists_nat_gt ((mort.principal_remaining - 1) / d)
  have hplt : mort.principal_remaining < 1 + fuel * d := by
    rw [div_lt_iff₀ hd] at hfuel
    linarith
  obtain ⟨n, hsome, hn1, hnlt, hk⟩ := payoffGo_terminates mort.rate
    mort.monthly_payment (mort.house_cost - mort.down_payment) hr hm fuel
    mort.principal_remaining hp (by rw [hddef] at hplt; exact hplt)
  exact ⟨fuel + 1, n, hsome, hn1, hnlt, hk⟩

/-- A mortgage state whose fixed payment exactly equals the monthly interest
on the original principal: rate 1/100, original principal 200 - 100 = 100,
payment 1 = (1/100) * 100. -/
def mortEq : Mortgage := ⟨1/100, 300, 1, 200, 100, 100, 0⟩

lemma payoffGo_stuck_at_equality :
    ∀ fuel : ℕ, payoffGo (1/100) 1 fuel 100 = none := by
  intro fuel
  induction fuel with
  | zero => rfl
  | succ f ih =>
    have hmin : min ((1:ℚ) - 100 * (1/100)) 100 = 0 := by norm_num
    show (if (100:ℚ) - min (1 - 100 * (1/100)) 100 < 1 then some 1
        else (payoffGo (1/100) 1 f (100 - min (1 - 100 * (1/100)) 100)).map
          (· + 1)) = none
    rw [hmin, show (100:ℚ) - 0 = 100 by norm_num,
      if_neg (by norm_num : ¬ (100:ℚ) < 1), ih]
    rfl

/-- C3 counterexample: `mortEq` satisfies the §3 invariant as stated (payment
≥ monthly interest on the original principal — here with equality), yet
`expected_payoff_months` never returns: each month the whole payment goes to
interest and the principal stays at 100 forever. -/
theorem mortgage_expected_payoff_months_terminates_cx :
    mortEq.rate * (mortEq.house_cost - mortEq.down_payment) ≤
        mortEq.monthly_payment ∧
      mortEq.principal_remaining ≤ mortEq.house_cost - mortEq.down_payment ∧
      0 ≤ mortEq.rate ∧
      ¬ ∃ fuel n, mortEq.expected_payoff_months fuel = some n := by
  refine ⟨by norm_num [mortEq], by norm_num [mortEq], by norm_num [mortEq], ?_⟩
  rintro ⟨fuel, n, hn⟩
  rw [Mortgage.expected_payoff_months, show mortEq.rate = 1/100 from rfl,
    show mortEq.monthly_payment = 1 from rfl,
    show mortEq.principal_remaining = 100 from rfl,
    payoffGo_stuck_at_equality fuel] at hn
  exact Option.noConfusion hn

/-- A mortgage state from the src/test_cases.py scenario (monthly rate 1/120,
principal 100000) with its payment rounded to 965, which strictly exceeds the
833.33 monthly interest on the original principal. -/
def mortW : Mortgage := ⟨1/120, 240, 965, 120000, 20000, 100000, 0⟩

/-- C3 witness: the amended termination theorem applied to `mortW`. -/
theorem mortgage_expected_payoff_months_terminates_witness :
    (0 ≤ mortW.rate) ∧
      mortW.principal_remaining ≤ mortW.house_cost - mortW.down_payment ∧
      mortW.rate * (mortW.house_cost - mortW.down_payment) <
        mortW.monthly_payment ∧
      ∃ fuel n, mortW.expected_payoff_months fuel = some n ∧ 1 ≤ n ∧
        payoffPrincipal mortW.rate mortW.monthly_payment n
          mortW.principal_remaining < 1 ∧
        ∀ k, 1 ≤ k → k < n →
          1 ≤ payoffPrincipal mortW.rate mortW.monthly_payment k
            mortW.principal_remaining :=
  ⟨by norm_num [mortW], by norm_num [mortW], by norm_num [mortW],
    mortgage_expected_payoff_months_terminates mortW (by norm_num [mortW])
      (by norm_num [mortW]) (by norm_num [mortW])⟩

/-! ### Savings vessels (src/saving_vessels.py)

`TFSA.deposit` and `RRSP.deposit` both embed the shared
`RegisteredAccount.deposit` (lines 15-22).  The Python `EmergencyFund.deposit`
(lines 129-133) returns 0 in its negative guard but falls off the end — i.e.
returns `None` — on the normal path, so its return type here is `Option ℚ`
(`none` = Python `None`).  `NonRegisteredAccount.deposit` (lines 145-147) has
no guard and returns `None`, so it returns only the new state. -/

def TFSA_YEARLY_ROOM_INCREASE : ℚ := 6000

structure TFSA where
  balance : ℚ
  contribution_room : ℚ
  curr_year_withdrawals : ℚ

def TFSA.deposit (t : TFSA) (amount : ℚ) : TFSA × ℚ :=
  if amount < 0 then (t, 0)
  else
    let deposit_amount := min t.contribution_room amount
    ({ t with
        balance := t.balance + deposit_amount,
        contribution_room := t.contribution_room - deposit_amount },
      deposit_amount)

def TFSA.withdraw (t : TFSA) (amount : ℚ) : TFSA × ℚ :=
  if amount < 0 then (t, 0)
  else
    let withdraw_amount := min t.balance amount
    ({ t with
        curr_year_withdrawals := t.curr_year_withdrawals + withdraw_amount,
        balance := t.balance - withdraw_amount }, withdraw_amount)

def TFSA.increment_year (t : TFSA) (interest_rate : ℚ) : TFSA :=
  { balance := t.balance * (1 + interest_rate),
    contribution_room := t.contribution_room +
      (TFSA_YEARLY_ROOM_INCREASE + t.curr_year_withdrawals),
    curr_year_withdrawals := 0 }

structure RRSP where
  balance : ℚ
  contribution_room : ℚ
  max_room : ℚ
  max_room_percent_income : ℚ

def RRSP.deposit (r : RRSP) (amount : ℚ) : RRSP × ℚ :=
  if amount < 0 then (r, 0)
  else
    let deposit_amount := min r.contribution_room amount
    ({ r with
        balance := r.balance + deposit_amount,
        contribution_room := r.contribution_room - deposit_amount },
      deposit_amount)

def RRSP.withdraw (r : RRSP) (amount : ℚ) : RRSP × ℚ :=
  if amount < 0 then (r, 0)
  else
    let withdraw_amount := min r.balance amount
    ({ r with balance := r.balance - withdraw_amount }, withdraw_amount)

def RRSP.increment_year (r : RRSP) (income interest_rate room_increment : ℚ) :
    RRSP × ℚ :=
  let room_increase := min r.max_room (income * r.max_room_percent_income)
  ({ balance := r.balance * (1 + interest_rate),
      contribution_room := r.contribution_room + room_increase,
      max_room := r.max_room * (1 + room_increment),
      max_room_percent_income := r.max_room_percent_income }, room_increase)

structure EmergencyFund where
  balance : ℚ
  emergency_months : ℚ

def EmergencyFund.withdraw (e : EmergencyFund) (amount : ℚ) :
    EmergencyFund × ℚ :=
  if amount < 0 then (e, 0)
  else
    let withdraw_amount := min e.balance amount
    ({ e with balance := e.balance - withdraw_amount }, withdraw_amount)

def EmergencyFund.deposit (e : EmergencyFund) (amount : ℚ) :
    EmergencyFund × Option ℚ :=
  if amount < 0 then (e, some 0)
  else ({ e with balance := e.balance + amount }, none)

def EmergencyFund.amount_under_limit (e : EmergencyFund)
    (monthly_expenses : ℚ) : ℚ :=
  e.emergency_months * monthly_expenses - e.balance

structure NonRegisteredAccount where
  balance : ℚ
  investment_costs : ℚ

def NonRegisteredAccount.deposit (a : NonRegisteredAccount) (amount : ℚ) :
    NonRegisteredAccount :=
  { balance := a.balance + amount,
    investment_costs := a.investment_costs + amount }

def NonRegisteredAccount.withdraw (a : NonRegisteredAccount) (amount : ℚ) :
    NonRegisteredAccount × ℚ × ℚ :=
  if a.balance = 0 then (a, 0, 0)
  else
    let amount2 := min amount a.balance
    let capital_gains := (a.balance - a.investment_costs) * (amount2 / a.balance)
    ({ balance := a.balance - amount2,
        investment_costs := a.investment_costs * (1 - amount2 / a.balance) },
      amount2, 0.5 * capital_gains)

def NonRegisteredAccount.capital_gains (a : NonRegisteredAccount)
    (amount : ℚ) : ℚ :=
  if a.balance = 0 then 0
  else
    let amount2 := min amount a.balance
    0.5 * ((a.balance - a.investment_costs) * (amount2 / a.balance))

def NonRegisteredAccount.increment_year (a : NonRegisteredAccount)
    (growth : ℚ) : NonRegisteredAccount :=
  { a with balance := a.balance * (1 + growth) }

/-- C5 (amended: restricted to the operations that actually guard): TFSA and
RRSP deposit/withdraw, the EmergencyFund withdraw, and the EmergencyFund
deposit all reject negative amounts, returning 0 and leaving balance,
contribution room and cost basis unchanged; and the TFSA and RRSP deposits
return the amount actually accepted (the balance grows by exactly the returned
amount).  `NonRegisteredAccount` has no negative guard on either operation,
and its deposit (like the EmergencyFund deposit on the non-negative path)
returns Python `None` rather than the amount moved. -/
theorem accounts_reject_negative_amounts :
    (∀ (t : TFSA) (a : ℚ), a < 0 → t.deposit a = (t, 0)) ∧
      (∀ (t : TFSA) (a : ℚ), a < 0 → t.withdraw a = (t, 0)) ∧
      (∀ (r : RRSP) (a : ℚ), a < 0 → r.deposit a = (r, 0)) ∧
      (∀ (r : RRSP) (a : ℚ), a < 0 → r.withdraw a = (r, 0)) ∧
      (∀ (e : EmergencyFund) (a : ℚ), a < 0 → e.deposit a = (e, some 0)) ∧
      (∀ (e : EmergencyFund) (a : ℚ), a < 0 → e.withdraw a = (e, 0)) ∧
      (∀ (t : TFSA) (a : ℚ),
        (t.deposit a).1.balance = t.balance + (t.deposit a).2) ∧
      (∀ (r : RRSP) (a : ℚ),
        (r.deposit a).1.balance = r.balance + (r.deposit a).2) := by
  refine ⟨fun t a h => ?_, fun t a h => ?_, fun r a h => ?_, fun r a h => ?_,
    fun e a h => ?_, fun e a h => ?_, fun t a => ?_, fun r a => ?_⟩
  · rw [TFSA.deposit, if_pos h]
  · rw [TFSA.withdraw, if_pos h]
  · rw [RRSP.deposit, if_pos h]
  · rw [RRSP.withdraw, if_pos h]
  · rw [EmergencyFund.deposit, if_pos h]
  · rw [EmergencyFund.withdraw, if_pos h]
  · rw [TFSA.deposit]
    by_cases h : a < 0
    · rw [if_pos h]; simp
    · rw [if_neg h]
  · rw [RRSP.deposit]
    by_cases h : a < 0
    · rw [if_pos h]; simp
    · rw [if_neg h]

/-- C5 counterexample: `NonRegisteredAccount.deposit` applies a negative
amount unchecked — depositing -5 into a balance of 10 leaves 5, not 10, and
nothing (Python `None`), not 0, is returned. -/
theorem accounts_reject_negative_amounts_cx :
    ((-5 : ℚ) < 0) ∧
      (NonRegisteredAccount.deposit ⟨10, 0⟩ (-5)).balance = 5 ∧ ((5 : ℚ) ≠ 10) := by
  refine ⟨by norm_num, ?_, by norm_num⟩
  norm_num [NonRegisteredAccount.deposit]

/-- C5 witness: the amended theorem applied to a concrete TFSA and a negative
amount, and to a concrete deposit above the contribution room. -/
theorem accounts_reject_negative_amounts_witness :
    ((-3 : ℚ) < 0) ∧ TFSA.deposit ⟨5, 7, 0⟩ (-3) = (⟨5, 7, 0⟩, 0) ∧
      (TFSA.deposit ⟨5, 7, 0⟩ 20).1.balance =
        (5 : ℚ) + (TFSA.deposit ⟨5, 7, 0⟩ 20).2 :=
  ⟨by norm_num, accounts_reject_negative_amounts.1 ⟨5, 7, 0⟩ (-3) (by norm_num),
    accounts_reject_negative_amounts.2.2.2.2.2.2.1 ⟨5, 7, 0⟩ 20⟩

/-! ### Person (src/person.py)

`withdrawable_cash` embeds lines 25-63 (note: on entry `withdrawable_cash` and
`additional_taxable_income` start at 0; the `elif` adds the non-retirement
TFSA share only when retirement is excluded and the withdrawal flag is off).
`withdraw_cash` embeds lines 65-100; the TFSA retirement-portion update
divides by `tfsa.balance - remaining_withdraw`, so the model returns `none`
exactly when that denominator is 0 (Python `ZeroDivisionError`). -/

structure PersonSettings where
  allow_tfsa_withdrawal : Bool
  max_retirement_contribution : ℚ
  annual_salary_increase : ℚ
  retirement_age : ℕ
  index_fund_return : ℚ

def defaultPersonSettings : PersonSettings := ⟨true, 0.15, 0.03, 65, 0.07⟩

structure Person where
  age : ℕ
  salary : ℚ
  tfsa : TFSA
  rrsp : RRSP
  nra : NonRegisteredAccount
  emergency_fund : EmergencyFund
  settings : PersonSettings
  tfsa_retirement_portion : ℚ
  yearly_investment_taxable_income : ℚ

def Person.withdrawable_cash (p : Person)
    (after_tax_calc include_retirement : Bool) : ℚ :=
  let wr : ℚ × ℚ :=
    if include_retirement then
      (p.rrsp.balance + p.tfsa.balance, p.rrsp.balance)
    else if ¬ p.settings.allow_tfsa_withdrawal then
      (p.tfsa.balance * (1 - p.tfsa_retirement_portion), 0)
    else (0, 0)
  let withdrawable_cash := wr.1 + p.nra.balance
  let additional_taxable_income := wr.2 + p.nra.capital_gains p.nra.balance
  if ¬ after_tax_calc then withdrawable_cash
  else
    withdrawable_cash -
      (tax_payable (p.salary + additional_taxable_income +
          p.yearly_investment_taxable_income) -
        tax_payable (p.salary + p.yearly_investment_taxable_income))

def Person.withdraw_cash (p : Person) (amount : ℚ) : Option (Person × ℚ) :=
  if amount > p.withdrawable_cash false true then some (p, 0)
  else
    let nraRes := p.nra.withdraw amount
    let total_withdrawn := nraRes.2.1
    let p1 := { p with
      nra := nraRes.1,
      yearly_investment_taxable_income :=
        p.yearly_investment_taxable_income + nraRes.2.2 }
    let remaining_withdraw := amount - total_withdrawn
    let afterTfsa : Option (Person × ℚ) :=
      if remaining_withdraw > 0 ∧ p1.tfsa_retirement_portion < 1 then
        if p1.tfsa.balance - remaining_withdraw = 0 then none
        else
          let p2 := { p1 with
            tfsa_retirement_portion :=
              p1.tfsa.balance * p1.tfsa_retirement_portion /
                (p1.tfsa.balance - remaining_withdraw) }
          let tw := p2.tfsa.withdraw remaining_withdraw
          some ({ p2 with tfsa := tw.1 }, total_withdrawn + tw.2)
      else some (p1, total_withdrawn)
    afterTfsa.bind (fun pr =>
      let p3 := pr.1
      let total1 := pr.2
      let remaining1 := amount - total1
      let step2 : Person × ℚ :=
        if remaining1 > 0 then
          let rw := p3.rrsp.withdraw (min p3.rrsp.balance remaining1)
          ({ p3 with
              rrsp := rw.1,
              yearly_investment_taxable_income :=
                p3.yearly_investment_taxable_income + rw.2 }, total1 + rw.2)
        else (p3, total1)
      let p4 := step2.1
      let total2 := step2.2
      let remaining2 := amount - total2
      if remaining2 > 0 then
        let tw2 := p4.tfsa.withdraw remaining2
        some ({ p4 with tfsa := tw2.1 }, total2 + tw2.2)
      else some (p4, total2))

/-- C4 (amended: the entry guard compares against the BEFORE-tax withdrawable
ceiling — `withdrawable_cash(False, include_retirement=True)` — not the
after-tax one): whenever the requested amount exceeds that ceiling,
`withdraw_cash` returns 0 and leaves the whole person state (every account
balance, the TFSA retirement portion, the year's taxable investment income)
unchanged. -/
theorem person_withdraw_cash_exceeding_ceiling (p : Person) (amount : ℚ)
    (h : amount > p.withdrawable_cash false true) :
    p.withdraw_cash amount = some (p, 0) := by
  rw [Person.withdraw_cash, if_pos h]

/-- C4 witness: a person with empty accounts; any positive request exceeds the
ceiling 0, and the call returns the unchanged state and 0. -/
theorem person_withdraw_cash_exceeding_ceiling_witness :
    ((5 : ℚ) > (Person.mk 30 0 ⟨0, 0, 0⟩ ⟨0, 0, 27230, 0.18⟩ ⟨0, 0⟩ ⟨0, 6⟩
        defaultPersonSettings 0 0).withdrawable_cash false true) ∧
      (Person.mk 30 0 ⟨0, 0, 0⟩ ⟨0, 0, 27230, 0.18⟩ ⟨0, 0⟩ ⟨0, 6⟩
        defaultPersonSettings 0 0).withdraw_cash 5 =
        some (Person.mk 30 0 ⟨0, 0, 0⟩ ⟨0, 0, 27230, 0.18⟩ ⟨0, 0⟩ ⟨0, 6⟩
          defaultPersonSettings 0 0, 0) :=
  ⟨by norm_num [Person.withdrawable_cash, NonRegisteredAccount.capital_gains],
    person_withdraw_cash_exceeding_ceiling _ 5
      (by norm_num [Person.withdrawable_cash, NonRegisteredAccount.capital_gains])⟩

/-- Exact value of the combined tax at income 105000, used by the C4
counterexample. -/
lemma tax_payable_105000 : tax_payable 105000 = 248479053/10000 := by
  norm_num [tax_payable, FEDERAL_TAX, ONTARIO_TAX, FEDERAL_BRACKETS, ONTARIO_BRACKETS,
    FEDERAL_TAX_RATES, ONTARIO_TAX_RATES, FEDERAL_BASIC_AMOUNT, ONTARIO_BASIC_AMOUNT,
    Taxes.tax_payable, taxGo]

/-- Salary 100000 and a taxable account of 10000 with zero cost basis:
emptying it realizes 5000 of taxable gains, so the after-tax ceiling is
10000 - (tax(105000) - tax(100000)) = 8142, while the before-tax guard used
by the code allows up to 10000. -/
def personCx : Person :=
  ⟨30, 100000, ⟨0, 0, 0⟩, ⟨0, 0, 27230, 0.18⟩, ⟨10000, 0⟩, ⟨0, 6⟩,
    defaultPersonSettings, 0, 0⟩

/-- C4 counterexample: requesting 9000 exceeds the after-tax withdrawable
ceiling (8142), yet `withdraw_cash` does not fail — it withdraws the full
9000, because the code's entry guard uses the before-tax ceiling. -/
theorem person_withdraw_cash_exceeding_ceiling_cx :
    (9000 : ℚ) > personCx.withdrawable_cash true true ∧
      Option.map Prod.snd (personCx.withdraw_cash 9000) = some 9000 ∧
      (9000 : ℚ) ≠ 0 := by
  refine ⟨?_, ?_, by norm_num⟩
  · rw [show personCx.withdrawable_cash true true =
        (0 + 0 + 10000) - (tax_payable (100000 + (0 + 5000) + 0) -
          tax_payable (100000 + 0)) from by
      norm_num [Person.withdrawable_cash, personCx,
        NonRegisteredAccount.capital_gains, defaultPersonSettings]]
    rw [show (100000 : ℚ) + (0 + 5000) + 0 = 105000 by norm_num,
      show (100000 : ℚ) + 0 = 100000 by norm_num,
      tax_payable_105000, tax_payable_100000]
    norm_num
  · norm_num [Person.withdraw_cash, Person.withdrawable_cash, personCx,
      NonRegisteredAccount.capital_gains, NonRegisteredAccount.withdraw,
      defaultPersonSettings, Option.bind]

/-- A person whose taxable account is empty, with a TFSA balance of 100, a
positive RRSP balance, and a zero TFSA retirement portion. -/
def personDiv : Person :=
  ⟨30, 0, ⟨100, 0, 0⟩, ⟨50, 0, 27230, 0.18⟩, ⟨0, 0⟩, ⟨0, 6⟩,
    defaultPersonSettings, 0, 0⟩

/-- C10: there is a person state that passes the withdraw_cash entry guard
(requested 100 ≤ before-tax withdrawable 150 with retirement included) on
which the TFSA retirement-portion update divides by zero: the taxable account
is empty, the retirement portion is below 1, and the remaining amount equals
the TFSA balance, so the denominator `tfsa.balance - remaining_withdraw` is 0
and the Python raises ZeroDivisionError (`none` in the model): the operation
is not total. -/
theorem person_withdraw_cash_div_zero :
    ¬ ((100 : ℚ) > personDiv.withdrawable_cash false true) ∧
      personDiv.withdraw_cash 100 = none := by
  constructor
  · norm_num [Person.withdrawable_cash, personDiv,
      NonRegisteredAccount.capital_gains, defaultPersonSettings]
  · norm_num [Person.withdraw_cash, Person.withdrawable_cash, personDiv,
      NonRegisteredAccount.capital_gains, NonRegisteredAccount.withdraw,
      defaultPersonSettings, Option.bind]

/-! ### FinancialUnit year advance (src/financial_unit.py lines 172-230)

`increment_n_years` runs, per year and per person index i: the contribution
waterfall `__calculate_person_contribution(i)` followed by the roll-forward of
person i (lines 180-203), then the 12-month mortgage advance when a mortgage
goal is active, then `year += 1`.  The contribution waterfall assigns account
balances, retirement portions, taxable income, mortgage and living-expense
state, but never assigns `_age`, `_salary` or `_settings` of any person; it is
therefore abstracted as a parameter `contrib : FinancialUnit → ℕ → FinancialUnit`
and the age/salary theorem holds for every `contrib` that preserves each
person's (age, salary, settings) view — which the source waterfall does.  The
`BalanceTracker` recording (lines 174 and 205-228) is write-only statistics
(read only by the plotter in utils.py) and touches no person, so it is
omitted.  `Person.year_rollover` embeds lines 181-203 exactly: taxable income
cleared, salary grown, TFSA/RRSP/NRA grown (the RRSP sees the already-grown
salary), salary zeroed only when the pre-increment age equals retirement_age,
then age incremented. -/

structure MortgageGoal where
  mortgage : Mortgage
  active : Bool

structure FinancialUnit where
  year : ℤ
  persons : List Person
  mortgage_goal : Option MortgageGoal

def Person.year_rollover (p : Person) : Person :=
  let salary1 := p.salary * (1 + p.settings.annual_salary_increase)
  { p with
    yearly_investment_taxable_income := 0,
    salary := if p.age = p.settings.retirement_age then 0 else salary1,
    tfsa := p.tfsa.increment_year p.settings.index_fund_return,
    rrsp := (p.rrsp.increment_year salary1 p.settings.index_fund_return 0).1,
    nra := p.nra.increment_year p.settings.index_fund_return,
    age := p.age + 1 }

def FinancialUnit.increment_year (contrib : FinancialUnit → ℕ → FinancialUnit)
    (u : FinancialUnit) : FinancialUnit :=
  let u1 := (List.range u.persons.length).foldl
    (fun s i =>
      let s2 := contrib s i
      { s2 with persons := List.modify Person.year_rollover i s2.persons }) u
  let mg2 :=
    match u1.mortgage_goal with
    | some g =>
      if g.active then some ⟨(g.mortgage.iterate_n_months 12).1, g.active⟩
      else some g
    | none => none
  { u1 with mortgage_goal := mg2, year := u1.year + 1 }

def FinancialUnit.increment_n_years
    (contrib : FinancialUnit → ℕ → FinancialUnit) :
    FinancialUnit → ℕ → FinancialUnit
  | u, 0 => u
  | u, n+1 =>
    FinancialUnit.increment_n_years contrib
      (FinancialUnit.increment_year contrib u) n

/-- The (age, salary, settings) view of a person: the data the year roll-over
acts on and the contribution waterfall never writes. -/
def Person.ageSalView (p : Person) : ℕ × ℚ × PersonSettings :=
  (p.age, p.salary, p.settings)

/-- The action of `Person.year_rollover` on the (age, salary, settings)
view. -/
def rolloverView : ℕ × ℚ × PersonSettings → ℕ × ℚ × PersonSettings
  | (age, salary, st) =>
    (age + 1,
      if age = st.retirement_age then 0
      else salary * (1 + st.annual_salary_increase), st)

lemma ageSalView_year_rollover (p : Person) :
    p.year_rollover.ageSalView = rolloverView p.ageSalView := rfl

lemma map_modify_view (i : ℕ) (l : List Person) :
    (List.modify Person.year_rollover i l).map Person.ageSalView =
      List.modify rolloverView i (l.map Person.ageSalView) := by
  induction l generalizing i with
  | nil => simp [List.modify_nil]
  | cons a l ih =>
    cases i with
    | zero =>
      simp only [List.modify_zero_cons, List.map_cons, ageSalView_year_rollover]
    | succ i =>
      simp only [List.modify_succ_cons, List.map_cons, ih]

lemma foldl_modify_shift {α : Type} (f : α → α) :
    ∀ (idxs : List ℕ) (a : α) (l : List α),
      idxs.foldl (fun v i => List.modify f (i + 1) v) (a :: l) =
        a :: idxs.foldl (fun v i => List.modify f i v) l := by
  intro idxs
  induction idxs with
  | nil => intro a l; rfl
  | cons i is ih =>
    intro a l
    simp only [List.foldl_cons, List.modify_succ_cons, ih]

lemma foldl_range_modify {α : Type} (f : α → α) :
    ∀ w : List α,
      (List.range w.length).foldl (fun v i => List.modify f i v) w = w.map f := by
  intro w
  induction w with
  | nil => rfl
  | cons a l ih =>
    rw [List.length_cons, List.range_succ_eq_map, List.foldl_cons,
      List.modify_zero_cons, List.foldl_map, foldl_modify_shift, ih,
      List.map_cons]

lemma foldl_contrib_view (contrib : FinancialUnit → ℕ → FinancialUnit)
    (hc : ∀ s i, (contrib s i).persons.map Person.ageSalView =
      s.persons.map Person.ageSalView) :
    ∀ (idxs : List ℕ) (u : FinancialUnit),
      ((idxs.foldl (fun s i =>
          let s2 := contrib s i
          { s2 with persons := List.modify Person.year_rollover i s2.persons })
        u).persons.map Person.ageSalView) =
        idxs.foldl (fun v i => List.modify rolloverView i v)
          (u.persons.map Person.ageSalView) := by
  intro idxs
  induction idxs with
  | nil => intro u; rfl
  | cons i is ih =>
    intro u
    simp only [List.foldl_cons]
    rw [ih]
    congr 1
    rw [map_modify_view, hc u i]

lemma increment_year_view (contrib : FinancialUnit → ℕ → FinancialUnit)
    (hc : ∀ s i, (contrib s i).persons.map Person.ageSalView =
      s.persons.map Person.ageSalView) (u : FinancialUnit) :
    (FinancialUnit.increment_year contrib u).persons.map Person.ageSalView =
      (u.persons.map Person.ageSalView).map rolloverView := by
  show ((List.range u.persons.length).foldl
      (fun s i =>
        let s2 := contrib s i
        { s2 with persons := List.modify Person.year_rollover i s2.persons })
      u).persons.map Person.ageSalView = _
  rw [foldl_contrib_view contrib hc]
  rw [show u.persons.length = (u.persons.map Person.ageSalView).length from
    (List.length_map _ _).symm]
  exact foldl_range_modify rolloverView (u.persons.map Person.ageSalView)

lemma increment_n_years_view (contrib : FinancialUnit → ℕ → FinancialUnit)
    (hc : ∀ s i, (contrib s i).persons.map Person.ageSalView =
      s.persons.map Person.ageSalView) :
    ∀ (n : ℕ) (u : FinancialUnit),
      (FinancialUnit.increment_n_years contrib u n).persons.map
          Person.ageSalView =
        (u.persons.map Person.ageSalView).map rolloverView^[n] := by
  intro n
  induction n with
  | zero =>
    intro u
    simp only [FinancialUnit.increment_n_years, Function.iterate_zero,
      List.map_id]
  | succ n ih =>
    intro u
    show (FinancialUnit.increment_n_years contrib
        (FinancialUnit.increment_year contrib u) n).persons.map
        Person.ageSalView = _
    rw [ih, increment_year_view contrib hc, List.map_map,
      ← Function.iterate_succ]

lemma rolloverView_iterate_age (n : ℕ) :
    ∀ v : ℕ × ℚ × PersonSettings, (rolloverView^[n] v).1 = v.1 + n := by
  induction n with
  | zero => intro v; simp
  | succ n ih =>
    intro v
    rw [Function.iterate_succ_apply, ih]
    obtain ⟨age, salary, st⟩ := v
    simp only [rolloverView]
    omega

lemma rolloverView_iterate_settings (n : ℕ) :
    ∀ v : ℕ × ℚ × PersonSettings, (rolloverView^[n] v).2.2 = v.2.2 := by
  induction n with
  | zero => intro v; simp
  | succ n ih =>
    intro v
    rw [Function.iterate_succ_apply, ih]
    obtain ⟨age, salary, st⟩ := v
    rfl

lemma rolloverView_iterate_zero_salary (n : ℕ) :
    ∀ v : ℕ × ℚ × PersonSettings, v.2.1 = 0 → (rolloverView^[n] v).2.1 = 0 := by
  induction n with
  | zero => intro v hv; simpa using hv
  | succ n ih =>
    intro v hv
    rw [Function.iterate_succ_apply]
    apply ih
    obtain ⟨age, salary, st⟩ := v
    simp only at hv
    simp only [rolloverView, hv, zero_mul]
    split <;> rfl

lemma rolloverView_iterate_salary (n : ℕ) :
    ∀ v : ℕ × ℚ × PersonSettings, v.1 ≤ v.2.2.retirement_age →
      v.2.2.retirement_age < v.1 + n → (rolloverView^[n] v).2.1 = 0 := by
  induction n with
  | zero => intro v h1 h2; omega
  | succ n ih =>
    intro v h1 h2
    rw [Function.iterate_succ_apply]
    obtain ⟨age, salary, st⟩ := v
    simp only at h1 h2
    by_cases hr : age = st.retirement_age
    · apply rolloverView_iterate_zero_salary
      simp only [rolloverView, if_pos hr]
    · apply ih
      · simp only [rolloverView]
        omega
      · simp only [rolloverView]
        omega

/-- C9 (amended: a person's salary is guaranteed 0 only when their starting
age was at most retirement_age and their final age strictly exceeds it; the
contribution waterfall is abstracted by any `contrib` preserving each person's
age, salary and settings, as the source waterfall does): after
`increment_n_years(n)`, every person's age has increased by exactly n, and
every person who passed through their retirement year has salary 0. -/
theorem financial_unit_increment_n_years_ages
    (contrib : FinancialUnit → ℕ → FinancialUnit)
    (hc : ∀ s i, (contrib s i).persons.map Person.ageSalView =
      s.persons.map Person.ageSalView)
    (u : FinancialUnit) (n : ℕ) (j : ℕ) (p : Person)
    (hj : u.persons.get? j = some p) :
    ∃ q, (FinancialUnit.increment_n_years contrib u n).persons.get? j =
        some q ∧
      q.age = p.age + n ∧
      (p.age ≤ p.settings.retirement_age →
        p.settings.retirement_age < p.age + n → q.salary = 0) := by
  have hview := increment_n_years_view contrib hc n u
  have hget : ((FinancialUnit.increment_n_years contrib u n).persons.map
      Person.ageSalView).get? j = some (rolloverView^[n] p.ageSalView) := by
    rw [hview, List.get?_map, List.get?_map, hj]
    rfl
  rw [List.get?_map] at hget
  obtain ⟨q, hq, hqv⟩ := Option.map_eq_some'.mp hget
  refine ⟨q, hq, ?_, ?_⟩
  · have hage := congrArg Prod.fst hqv
    simp only [Person.ageSalView] at hage
    rw [show q.age = (Person.ageSalView q).1 from rfl, hqv,
      rolloverView_iterate_age]
    rfl
  · intro h1 h2
    rw [show q.salary = (Person.ageSalView q).2.1 from rfl, hqv]
    exact rolloverView_iterate_salary n p.ageSalView h1 h2

/-- A person already past retirement age (70 > 65) with a positive salary. -/
def personOld : Person :=
  ⟨70, 100, ⟨0, 0, 0⟩, ⟨0, 0, 27230, 0.18⟩, ⟨0, 0⟩, ⟨0, 6⟩,
    defaultPersonSettings, 0, 0⟩

def unitOld : FinancialUnit := ⟨2020, [personOld], none⟩

/-- C9 counterexample: after one simulated year the person is aged 71, at or
past retirement_age 65, yet their salary is 103 (it grew by 3%), not 0 — the
code zeroes the salary only in the single year when age equals
retirement_age, so a person starting past it is never zeroed. -/
theorem financial_unit_increment_n_years_ages_cx :
    (FinancialUnit.increment_n_years (fun s _ => s) unitOld 1).persons.map
        Person.ageSalView = [(71, 103, defaultPersonSettings)] ∧
      defaultPersonSettings.retirement_age = 65 ∧ 65 ≤ 71 ∧ (103 : ℚ) ≠ 0 := by
  refine ⟨?_, rfl, by norm_num, by norm_num⟩
  show (FinancialUnit.increment_year (fun s _ => s) unitOld).persons.map
      Person.ageSalView = _
  norm_num [FinancialUnit.increment_year, unitOld, personOld,
    Person.year_rollover, Person.ageSalView, defaultPersonSettings,
    List.range_succ, List.modify_zero_cons, TFSA.increment_year,
    RRSP.increment_year, NonRegisteredAccount.increment_year]

/-- A person one year short of retirement age. -/
def personNear : Person :=
  ⟨64, 100, ⟨0, 0, 0⟩, ⟨0, 0, 27230, 0.18⟩, ⟨0, 0⟩, ⟨0, 6⟩,
    defaultPersonSettings, 0, 0⟩

def unitNear : FinancialUnit := ⟨2020, [personNear], none⟩

/-- C9 witness: the amended theorem applied with the identity contribution
(which preserves every view) to a one-person unit aged 64 advanced 2 years:
the person ends at age 66 with salary 0. -/
theorem financial_unit_increment_n_years_ages_witness :
    ∃ q, (FinancialUnit.increment_n_years (fun s _ => s) unitNear 2).persons.get?
        0 = some q ∧
      q.age = personNear.age + 2 ∧
      (personNear.age ≤ personNear.settings.retirement_age →
        personNear.settings.retirement_age < personNear.age + 2 →
        q.salary = 0) :=
  financial_unit_increment_n_years_ages (fun s _ => s) (fun s i => rfl)
    unitNear 2 0 personNear rfl
